import Mathlib

/-!
Verification of the frontmatter-unclobbering core of the obsidian-tools
repository (src/obsidian_tools/unclobber_yaml_frontmatter.py, with helpers
from src/obsidian_tools/common.py).

The Python code is shallowly embedded below.  Pure Python functions become
Lean functions over `List Char` (Python `str`) and over an inductive `Value`
type (the YAML scalar and list values the tool manipulates).  Behaviour of
the third-party libraries the code calls (PyYAML `safe_load`, ruamel `dump`,
CPython `datetime.fromisoformat`, `str` methods, `sorted`, `set`, `max`) is
modelled faithfully on the fragment those calls are exercised on; each model
carries a doc comment stating the modelled fragment.
-/

namespace Unclobber

/-- A YAML scalar value as produced by PyYAML for the flat frontmatter
mappings the tool processes: null, booleans, integers and plain strings.
Floats, dates resolved to `datetime` objects and other tags are outside the
modelled fragment. -/
inductive Scalar where
  | null
  | bool (b : Bool)
  | int (n : Int)
  | str (s : String)
deriving DecidableEq, Repr

/-- A frontmatter value: a scalar or a list of scalars (the spec limits the
tool to flat-to-shallow mappings whose values are scalars or lists). -/
inductive Value where
  | scalar (s : Scalar)
  | list (items : List Scalar)
deriving DecidableEq, Repr

/-- Numeric view of a scalar: Python treats `bool` as a subtype of `int`,
so `True == 1` and `True < 2`. -/
def Scalar.toNum : Scalar → Option Int
  | .bool b => some (if b then 1 else 0)
  | .int n => some n
  | _ => none

/-- Python `==` on scalars: numbers (ints and bools) compare numerically,
otherwise values are equal only when of the same type and equal. -/
def pyEqScalar (a b : Scalar) : Bool :=
  match a.toNum, b.toNum with
  | some x, some y => x == y
  | _, _ => a == b

/-- CPython `str < str`: lexicographic comparison by code point, a
proper prefix sorting lower. -/
def charListLt : List Char → List Char → Bool
  | _, [] => false
  | [], _ :: _ => true
  | a :: xs, b :: ys =>
    if a.toNat < b.toNat then true
    else if b.toNat < a.toNat then false
    else charListLt xs ys

/-- Python `<` on scalars.  `none` models a `TypeError`: only
number/number and string/string comparisons are ordered; strings compare
lexicographically by code point, as in CPython. -/
def pyLtScalar (a b : Scalar) : Option Bool :=
  match a, b with
  | .str x, .str y => some (charListLt x.data y.data)
  | _, _ =>
    match a.toNum, b.toNum with
    | some x, some y => some (decide (x < y))
    | _, _ => none

/-- Total boolean companion of `pyLtScalar` used by the sort; its value on
incomparable pairs is irrelevant because the sort is only reached when all
pairs are comparable. -/
def pyLeB (a b : Scalar) : Bool :=
  match pyLtScalar b a with
  | some r => !r
  | none => true

/-- Python `==` on values; two lists are equal when they have equal lengths
and elementwise equal members. -/
def pyEqValue (a b : Value) : Bool :=
  match a, b with
  | .scalar x, .scalar y => pyEqScalar x y
  | .list xs, .list ys =>
    xs.length == ys.length && (List.zip xs ys).all fun p => pyEqScalar p.1 p.2
  | _, _ => false

/-- Model of building a Python `set` from a list: keep the first
representative of every `==`-class, in first-insertion order. -/
def pyInsertNew (acc : List Scalar) (x : Scalar) : List Scalar :=
  if acc.any fun y => pyEqScalar y x then acc else acc ++ [x]

/-- Model of Python `set(l)` (as a first-occurrence list of
representatives). -/
def pySetOfList (l : List Scalar) : List Scalar :=
  l.foldl pyInsertNew []

/-- Ordered insertion for the model of Python `sorted`. -/
def insertSorted (x : Scalar) : List Scalar → List Scalar
  | [] => [x]
  | y :: ys => if pyLeB x y then x :: y :: ys else y :: insertSorted x ys

/-- Insertion sort underlying the model of Python `sorted`. -/
def sortScalars : List Scalar → List Scalar
  | [] => []
  | x :: xs => insertSorted x (sortScalars xs)

/-- All pairs of elements of the list are orderable by Python `<`. -/
def comparableScalars (l : List Scalar) : Bool :=
  l.all fun a => l.all fun b => (pyLtScalar a b).isSome

/-- Model of CPython `sorted(l)`: raises `TypeError` exactly when the
elements are not mutually orderable (faithful on the short deduplicated
lists arising here), otherwise returns the ascending reordering. -/
def pySorted (l : List Scalar) : Except String (List Scalar) :=
  if comparableScalars l then .ok (sortScalars l)
  else .error "TypeError: unorderable types"

/-- Model of `sorted(list(set(xs) | set(ys)))` from merge_frontmatters. -/
def listUnionSorted (xs ys : List Scalar) : Except String (List Scalar) :=
  pySorted (pySetOfList (xs ++ ys))

/-- A frontmatter mapping: Python `dict` in insertion order. -/
abbrev Dict := List (String × Value)

/-- Python `d[k]` lookup (first binding; dictionaries built below never
hold duplicate keys). -/
def dictGet : Dict → String → Option Value
  | [], _ => none
  | (k', v') :: rest, k => if k' = k then some v' else dictGet rest k

/-- Python `d[k] = v`: update in place when the key exists (keeping its
position) and append otherwise, as CPython dictionaries do. -/
def dictSet : Dict → String → Value → Dict
  | [], k, v => [(k, v)]
  | (k', v') :: rest, k, v =>
    if k' = k then (k, v) :: rest else (k', v') :: dictSet rest k v

/-- Python `key in d`. -/
def hasKey (m : Dict) (k : String) : Bool :=
  (dictGet m k).isSome

/-! ### Python string primitives (over `List Char`) -/

/-- The characters Python `str.strip` and `\s` in an ASCII regex treat as
whitespace. -/
def isPySpace (c : Char) : Bool :=
  c = ' ' || c = '\t' || c = '\n' || c = '\r' || c = '\x0b' || c = '\x0c'

/-- Python `str.lstrip()`. -/
def pyLStrip (s : List Char) : List Char :=
  s.dropWhile isPySpace

/-- Python `str.strip()`. -/
def pyStrip (s : List Char) : List Char :=
  ((s.dropWhile isPySpace).reverse.dropWhile isPySpace).reverse

/-- Worker for `pySplit`; fuel-driven so that it is structurally recursive
and evaluates inside the kernel.  Fuel at least `s.length + 1` is always
enough because every step consumes at least one character of `s`. -/
def pySplitAux (sep : List Char) : Nat → List Char → List Char → List (List Char)
  | 0, _, acc => [acc.reverse]
  | _ + 1, [], acc => [acc.reverse]
  | fuel + 1, c :: rest, acc =>
    if sep.isPrefixOf (c :: rest) then
      acc.reverse :: pySplitAux sep fuel ((c :: rest).drop sep.length) []
    else
      pySplitAux sep fuel rest (c :: acc)

/-- Python `s.split(sep)` for a non-empty separator: split at every
leftmost non-overlapping occurrence, keeping empty segments. -/
def pySplit (sep s : List Char) : List (List Char) :=
  pySplitAux sep (s.length + 1) s []

/-- Python `str.splitlines()` restricted to `\n` line endings (the only
line ending occurring in the processed documents): like splitting on `\n`
but with no empty segment after a trailing newline. -/
def pySplitlines (s : List Char) : List (List Char) :=
  let parts := pySplit ['\n'] s
  if parts.getLast? = some [] then parts.dropLast else parts

/-- Lower-case a string, modelling `re.IGNORECASE` matching of ASCII
patterns. -/
def toLowerList (l : List Char) : List Char :=
  l.map Char.toLower

/-- Drop a run of regex `\s*`. -/
def dropSpaces (l : List Char) : List Char :=
  l.dropWhile isPySpace

/-! ### Model of `datetime.fromisoformat` and `is_datestamp`
(common.py, lines 68-77) -/

/-- Read exactly `n` decimal digits, returning their value and the rest. -/
def readDigits : Nat → Nat → List Char → Option (Nat × List Char)
  | 0, acc, cs => some (acc, cs)
  | n + 1, acc, c :: cs =>
    if c.isDigit then readDigits n (acc * 10 + (c.toNat - 48)) cs else none
  | _ + 1, _, [] => none

/-- Gregorian leap year. -/
def isLeapYear (y : Nat) : Bool :=
  (y % 4 == 0 && y % 100 != 0) || y % 400 == 0

/-- Number of days of month `m` of year `y`. -/
def daysInMonth (y m : Nat) : Nat :=
  if m == 2 then (if isLeapYear y then 29 else 28)
  else if m == 4 || m == 6 || m == 9 || m == 11 then 30
  else 31

/-- A parsed ISO-8601 timestamp: date, optional time, optional UTC offset
(`offSign = true` means a `+` offset). -/
structure IsoDt where
  year : Nat
  month : Nat
  day : Nat
  hour : Nat := 0
  minute : Nat := 0
  second : Nat := 0
  offSign : Bool := true
  offHour : Nat := 0
  offMinute : Nat := 0
deriving DecidableEq, Repr

/-- Parse the optional `±HH:MM` offset suffix. -/
def parseOffset (t : IsoDt) (cs : List Char) : Option IsoDt :=
  match cs with
  | [] => some t
  | sign :: rest =>
    if sign = '+' || sign = '-' then
      match readDigits 2 0 rest with
      | some (oh, ':' :: rest2) =>
        match readDigits 2 0 rest2 with
        | some (om, []) =>
          if oh ≤ 23 && om ≤ 59 then
            some { t with offSign := sign = '+', offHour := oh, offMinute := om }
          else none
        | _ => none
      | _ => none
    else none

/-- Parse the optional `.ffffff` fraction (1 to 6 digits, value ignored for
ordering at second granularity) followed by the optional offset. -/
def parseFractionAndOffset (t : IsoDt) (cs : List Char) : Option IsoDt :=
  match cs with
  | '.' :: rest =>
    let digits := rest.takeWhile Char.isDigit
    if digits.length ≥ 1 && digits.length ≤ 6 then
      parseOffset t (rest.drop digits.length)
    else none
  | _ => parseOffset t cs

/-- Parse `HH:MM[:SS[.ffffff]][±HH:MM]`. -/
def parseTimePart (t : IsoDt) (cs : List Char) : Option IsoDt := do
  let (h, cs) ← readDigits 2 0 cs
  match cs with
  | ':' :: cs =>
    let (mi, cs) ← readDigits 2 0 cs
    if h ≤ 23 && mi ≤ 59 then
      match cs with
      | ':' :: cs => do
        let (s, cs) ← readDigits 2 0 cs
        if s ≤ 59 then parseFractionAndOffset { t with hour := h, minute := mi, second := s } cs
        else none
      | _ => parseOffset { t with hour := h, minute := mi } cs
    else none
  | _ => none

/-- Model of CPython `datetime.fromisoformat` on the extended format
`YYYY-MM-DD[{T,space}HH:MM[:SS[.ffffff]][±HH:MM]]` with calendar
validation.  Basic formats without separators, week dates and offsets with
seconds are outside the modelled fragment. -/
def parseIsoDatetime (cs : List Char) : Option IsoDt := do
  let (y, cs) ← readDigits 4 0 cs
  match cs with
  | '-' :: cs =>
    let (mo, cs) ← readDigits 2 0 cs
    match cs with
    | '-' :: cs =>
      let (d, cs) ← readDigits 2 0 cs
      if 1 ≤ mo && mo ≤ 12 && 1 ≤ d && d ≤ daysInMonth y mo then
        let t : IsoDt := { year := y, month := mo, day := d }
        match cs with
        | [] => some t
        | sep :: rest =>
          if sep = 'T' || sep = ' ' then parseTimePart t rest else none
      else none
    | _ => none
  | _ => none

/-- Python `value.replace("Z", "+00:00")` (every occurrence of the single
character `Z`). -/
def replaceZ : List Char → List Char
  | [] => []
  | c :: cs =>
    if c = 'Z' then '+' :: '0' :: '0' :: ':' :: '0' :: '0' :: replaceZ cs
    else c :: replaceZ cs

/-- is_datestamp (common.py, lines 68-77): a value is a datestamp when it
is a string and `datetime.fromisoformat(value.replace("Z", "+00:00"))`
succeeds. -/
def is_datestamp (v : Value) : Bool :=
  match v with
  | .scalar (.str s) => (parseIsoDatetime (replaceZ s.data)).isSome
  | _ => false

/-- Days since the Unix epoch of a Gregorian date (the standard
days-from-civil computation). -/
def daysFromCivil (y : Int) (m d : Nat) : Int :=
  let y' : Int := if m ≤ 2 then y - 1 else y
  let era : Int := (if 0 ≤ y' then y' else y' - 399) / 400
  let yoe : Int := y' - era * 400
  let mp : Int := if 2 < m then (m : Int) - 3 else (m : Int) + 9
  let doy : Int := (153 * mp + 2) / 5 + (d : Int) - 1
  let doe : Int := yoe * 365 + yoe / 4 - yoe / 100 + doy
  era * 146097 + doe - 719468

/-- UTC timeline position of a parsed timestamp, in seconds since the
epoch (fractions ignored). -/
def utcSeconds (t : IsoDt) : Int :=
  daysFromCivil (t.year : Int) t.month t.day * 86400
    + (t.hour : Int) * 3600 + (t.minute : Int) * 60 + (t.second : Int)
    - (if t.offSign then 1 else -1) * ((t.offHour : Int) * 3600 + (t.offMinute : Int) * 60)

/-- UTC timeline position of a datestamp string (0 when it does not
parse; only applied to strings accepted by `is_datestamp`). -/
def utcOfString (s : String) : Int :=
  match parseIsoDatetime (replaceZ s.data) with
  | some t => utcSeconds t
  | none => 0

/-- Python `max(existing, value)` in the datestamp branch of
merge_frontmatters: both arguments are strings there (`is_datestamp` only
accepts strings) and `max` returns the second exactly when the first is
lexicographically smaller. -/
def pyMaxDatestamp (a b : Value) : Value :=
  match a, b with
  | .scalar (.str x), .scalar (.str y) => if charListLt x.data y.data then b else a
  | _, _ => b

/-! ### merge_frontmatters (unclobber_yaml_frontmatter.py, lines 48-73) -/

/-- A conflict record, modelling the `logger.warning` observability event
emitted by the final conflict branch of merge_frontmatters. -/
structure ConflictRecord where
  key : String
  oldValue : Value
  newValue : Value
deriving DecidableEq, Repr

/-- One iteration of the inner loop of merge_frontmatters for a
`(key, value)` item of a block, with the dictionary and the emitted
conflict records accumulated so far.  An `error` result models a raised
`TypeError` from `sorted` on an unorderable union. -/
def mergeItem (acc : Dict × List ConflictRecord) (kv : String × Value) :
    Except String (Dict × List ConflictRecord) :=
  let merged := acc.1
  let records := acc.2
  let key := kv.1
  let value := kv.2
  match dictGet merged key with
  | none => .ok (merged ++ [(key, value)], records)
  | some existing =>
    if is_datestamp existing && is_datestamp value then
      .ok (dictSet merged key (pyMaxDatestamp existing value), records)
    else
      match existing, value with
      | .list xs, .list ys => do
        let u ← listUnionSorted xs ys
        .ok (dictSet merged key (.list u), records)
      | .list xs, .scalar s => do
        let u ← listUnionSorted xs [s]
        .ok (dictSet merged key (.list u), records)
      | .scalar s, .list ys => do
        let u ← listUnionSorted ys [s]
        .ok (dictSet merged key (.list u), records)
      | _, _ =>
        if pyEqValue existing value then .ok (merged, records)
        else .ok (dictSet merged key value, records ++ [⟨key, existing, value⟩])

/-- merge_frontmatters (lines 48-73): fold all items of all blocks, in
order, into one merged mapping, collecting the conflict records the code
logs. -/
def merge_frontmatters (blocks : List Dict) :
    Except String (Dict × List ConflictRecord) :=
  blocks.foldlM (fun acc block => block.foldlM mergeItem acc) ([], [])

/-! ### contains_implicit_null (unclobber_yaml_frontmatter.py, lines 76-95) -/

/-- Model of `re.match(rf"^\s*{re.escape(str(key))}\s*:\s*(null|~)\s*$",
line, flags=re.IGNORECASE)`: optional whitespace, the key literal
(case-insensitively), optional whitespace, a colon, optional whitespace,
`null` or `~` (case-insensitively), optional whitespace, end of line. -/
def matchesExplicitNull (key line : List Char) : Bool :=
  let l := toLowerList line
  let k := toLowerList key
  let rest := dropSpaces l
  k.isPrefixOf rest &&
    (match dropSpaces (rest.drop k.length) with
     | ':' :: r2 =>
       let r3 := dropSpaces r2
       ("null".data.isPrefixOf r3 && (r3.drop 4).all isPySpace)
         || (['~'].isPrefixOf r3 && (r3.drop 1).all isPySpace)
     | _ => false)

/-- contains_implicit_null (lines 76-95): true when some key of `data`
maps to null and no line of the raw chunk is an explicit `key: null` or
`key: ~` line. -/
def contains_implicit_null (yamlStr : List Char) (data : Dict) : Bool :=
  data.any fun kv =>
    match kv.2 with
    | .scalar .null =>
      !((pySplitlines yamlStr).any fun line => matchesExplicitNull kv.1.data line)
    | _ => false

/-! ### Model of `yaml.safe_load` on one candidate chunk

The splitter feeds `yaml.safe_load` one chunk at a time and only uses the
outcome "parses to a `dict`", "parses to something else" or "raises".  The
model below implements PyYAML on the fragment the chunks can fall in: an
optional leading `---` document start line, blank lines, a flat block
mapping of `key: value` lines at a common indentation (values: plain
scalars resolved as null/bool/int/string, or a flat flow sequence
`[a, b]`), or a plain multi-line scalar.  A second document start line, a
mix of mapping and non-mapping lines, or inconsistent mapping indentation
raise, as they do in PyYAML.  Anchors, block sequences, nested mappings,
quoting, comments and the 1.1 yes/no/on/off booleans are outside the
modelled fragment (no candidate chunk in the verified claims uses them). -/

/-- Result of `yaml.safe_load` on a chunk: `None`, a scalar, or a dict. -/
inductive YamlDoc where
  | nullDoc
  | scalarDoc (s : Scalar)
  | mapDoc (m : Dict)
deriving DecidableEq, Repr

/-- A line that is empty or all whitespace. -/
def isBlankLine (l : List Char) : Bool :=
  l.all isPySpace

/-- A YAML document start marker line: `---` alone or `---` followed by a
space. -/
def isDocStartLine (l : List Char) : Bool :=
  l = ['-', '-', '-'] || ['-', '-', '-', ' '].isPrefixOf l

/-- Leading-space indentation of a line. -/
def lineIndent (l : List Char) : Nat :=
  (l.takeWhile fun c => c = ' ').length

/-- Split a line at the first colon that is followed by a space or ends
the line (the YAML block mapping separator); `none` when the line has no
such colon and hence is not a mapping line. -/
def splitKeyColonAux (acc : List Char) : List Char → Option (List Char × List Char)
  | [] => none
  | ':' :: rest =>
    match rest with
    | [] => some (acc.reverse, [])
    | c :: _ =>
      if c = ' ' then some (acc.reverse, rest) else splitKeyColonAux (':' :: acc) rest
  | c :: rest => splitKeyColonAux (c :: acc) rest

/-- Decimal value of a digit string. -/
def natFromDigits (l : List Char) : Nat :=
  l.foldl (fun a c => a * 10 + (c.toNat - 48)) 0

/-- YAML 1.1 decimal integer scalar (optional sign and digits). -/
def parseIntChars (l : List Char) : Option Int :=
  match l with
  | '-' :: ds =>
    if ds ≠ [] && ds.all Char.isDigit then some (-(natFromDigits ds : Int)) else none
  | '+' :: ds =>
    if ds ≠ [] && ds.all Char.isDigit then some (natFromDigits ds : Int) else none
  | ds =>
    if ds ≠ [] && ds.all Char.isDigit then some (natFromDigits ds : Int) else none

/-- PyYAML plain scalar resolution on the modelled fragment: empty /
null / ~ resolve to null, true/false (three standard casings) to booleans,
decimal integers to ints, everything else to a string. -/
def resolveScalar (raw : List Char) : Scalar :=
  let t := pyStrip raw
  if t = [] then .null
  else if t = "null".data || t = "Null".data || t = "NULL".data || t = ['~'] then .null
  else if t = "true".data || t = "True".data || t = "TRUE".data then .bool true
  else if t = "false".data || t = "False".data || t = "FALSE".data then .bool false
  else
    match parseIntChars t with
    | some n => .int n
    | none => .str (String.mk t)

/-- Whether the text contains a colon-space sequence, which makes a plain
scalar value a YAML error (mapping values are not allowed there). -/
def containsColonSpace : List Char → Bool
  | ':' :: ' ' :: _ => true
  | _ :: rest => containsColonSpace rest
  | [] => false

/-- Flat flow sequence body: comma-separated plain scalars. -/
def parseFlowList (inner : List Char) : List Scalar :=
  let t := pyStrip inner
  if t = [] then [] else (pySplit [','] t).map resolveScalar

/-- Parse the value text of a mapping line. -/
def parseValueText (raw : List Char) : Except String Value :=
  let t := pyStrip raw
  match t with
  | '[' :: _ =>
    if t.getLast? = some ']' then .ok (.list (parseFlowList (t.drop 1).dropLast))
    else .error "YAMLError: unterminated flow sequence"
  | _ =>
    if containsColonSpace t then .error "YAMLError: mapping values are not allowed here"
    else .ok (.scalar (resolveScalar t))

/-- Parse one mapping line into the dictionary under construction
(duplicate keys overwrite, as in PyYAML). -/
def parseMapLine (acc : Dict) (l : List Char) : Except String Dict :=
  match splitKeyColonAux [] l with
  | none => .error "YAMLError: expected a mapping line"
  | some kv => do
    let v ← parseValueText kv.2
    .ok (dictSet acc (String.mk (pyStrip kv.1)) v)

/-- Parse the non-blank content lines of a single document: a flat block
mapping when every line is a mapping line at a common indentation, a plain
scalar when no line is a mapping line, an error on a mix or on
inconsistent mapping indentation. -/
def parseContentLines (content : List (List Char)) : Except String YamlDoc :=
  match content with
  | [] => .ok .nullDoc
  | c0 :: _ =>
    if (content.map (splitKeyColonAux [])).all Option.isSome then
      if content.all fun l => lineIndent l = lineIndent c0 then
        match content.foldlM parseMapLine [] with
        | .ok m => .ok (.mapDoc m)
        | .error e => .error e
      else .error "YAMLError: inconsistent mapping indentation"
    else if (content.map (splitKeyColonAux [])).all fun o => !o.isSome then
      .ok (.scalarDoc (resolveScalar (List.intercalate [' '] (content.map pyStrip))))
    else .error "YAMLError: could not parse block node"

/-- Parse the lines following the optional document start marker: a
further marker anywhere is a multi-document stream, which
`yaml.safe_load` rejects. -/
def parseAfterMarker (ls : List (List Char)) : Except String YamlDoc :=
  let content := ls.filter fun l => !isBlankLine l
  if content.any isDocStartLine then
    .error "ComposerError: expected a single document in the stream"
  else parseContentLines content

/-- Model of `yaml.safe_load(io.StringIO(part))` on the modelled fragment
(see the section comment above). -/
def pyYamlSafeLoad (text : List Char) : Except String YamlDoc :=
  match (pySplit ['\n'] text).dropWhile isBlankLine with
  | [] => .ok .nullDoc
  | first :: rest =>
    if isDocStartLine first then
      if (first.drop 3).all isPySpace then parseAfterMarker rest
      else .error "YAMLError: content on the document start line is not modelled"
    else parseAfterMarker (first :: rest)

/-! ### extract_frontmatter_and_body (lines 98-142) and process_file
(lines 145-173) -/

/-- The delimiter separator the splitter and the body re-join use. -/
def yamlSep : List Char := ['\n', '-', '-', '-', '\n']

/-- The loop state of extract_frontmatter_and_body: the `is_body` flag,
the accepted frontmatter blocks and the body parts collected so far. -/
structure SplitState where
  isBody : Bool
  frontmatters : List Dict
  bodyParts : List (List Char)
deriving Repr

/-- One iteration of the classification loop (lines 122-138): while not in
the body, a part that parses to a dict free of implicit nulls is accepted
as frontmatter; any other part switches to body mode; once in body mode
every part is appended to the body. -/
def classifyPart (st : SplitState) (part : List Char) : SplitState :=
  if st.isBody then { st with bodyParts := st.bodyParts ++ [part] }
  else
    match pyYamlSafeLoad part with
    | .ok (.mapDoc data) =>
      if contains_implicit_null part data then
        { st with isBody := true, bodyParts := st.bodyParts ++ [part] }
      else { st with frontmatters := st.frontmatters ++ [data] }
    | _ => { st with isBody := true, bodyParts := st.bodyParts ++ [part] }

/-- extract_frontmatter_and_body (lines 98-142): split the document on the
delimiter, pop a leading empty part, classify the parts, and re-join the
body parts with the delimiter, stripped of surrounding whitespace. -/
def extract_frontmatter_and_body (text : String) : List Dict × String :=
  let cs := text.data
  if !(['-', '-', '-'].isPrefixOf (pyLStrip cs)) then ([], text)
  else
    let parts := pySplit yamlSep cs
    if parts.length = 1 && pyStrip (parts.headD []) = [] then ([], text)
    else
      let parts := if pyStrip (parts.headD []) = [] then parts.tail else parts
      let fin := parts.foldl classifyPart ⟨false, [], []⟩
      (fin.frontmatters, String.mk (pyStrip (List.intercalate yamlSep fin.bodyParts)))

/-- Serialized form of a scalar in the dump model; ruamel (round-trip
representer) emits a null value as nothing. -/
def dumpScalar : Scalar → List Char
  | .null => []
  | .bool b => if b then "true".data else "false".data
  | .int n => (toString n).data
  | .str s => s.data

/-- Model of the ruamel `YAML()` dump configured with
`indent(mapping=2, sequence=4, offset=2)` and the registered set-to-list
representer, on flat mappings of scalar and scalar-list values: one
`key: value` line per scalar entry (a bare `key:` for null), block
sequences with the dash at offset 2 for lists.  Quoting of special
strings is outside the modelled fragment. -/
def yamlDumpLine (kv : String × Value) : List Char :=
  match kv.2 with
  | .scalar .null => kv.1.data ++ [':', '\n']
  | .scalar s => kv.1.data ++ [':', ' '] ++ dumpScalar s ++ ['\n']
  | .list items =>
    kv.1.data ++ [':', '\n']
      ++ (items.map fun s => [' ', ' ', '-', ' '] ++ dumpScalar s ++ ['\n']).flatten

/-- Dump of a whole merged mapping, in iteration order. -/
def yamlDump (m : Dict) : List Char :=
  (m.map yamlDumpLine).flatten

/-- process_file (lines 145-173) on the already-decoded document text (the
file read and the `UnicodeDecodeError` skip belong to the caller, per the
spec).  `.ok none` is the unchanged signal, `.ok (some t)` the replacement
text `f"---\n{new_fm_str}---\n\n{body}\n"`, and `.error` a raised
exception escaping process_file (caught per file by main, lines 223-229). -/
def process_file (text : String) : Except String (Option String) :=
  let fmb := extract_frontmatter_and_body text
  if fmb.1.length ≤ 1 then .ok none
  else do
    let mr ← merge_frontmatters fmb.1
    .ok (some (String.mk (['-', '-', '-', '\n'] ++ yamlDump mr.1
      ++ ['-', '-', '-', '\n', '\n'] ++ (fmb.2).data ++ ['\n'])))

/-- The acceptance decision of the classification loop on one candidate
chunk, as a single predicate: `some data` when the chunk parses to a dict
that passes the implicit-null guard, `none` when it is rejected. -/
def acceptsChunk (part : List Char) : Option Dict :=
  match pyYamlSafeLoad part with
  | .ok (.mapDoc data) =>
    if contains_implicit_null part data then none else some data
  | _ => none

/-- The claim-side body trim, modelled from the words of the spec: the
body is "trimmed of a single leading/trailing blank line" and otherwise
preserved byte-for-byte.  A leading blank line is a whitespace-only line
prefix together with its terminating newline; a trailing blank line is a
final newline together with the whitespace that follows it. -/
def trimSingleBlankLines (s : List Char) : List Char :=
  let ws := s.takeWhile fun c => isPySpace c && c ≠ '\n'
  let afterLead :=
    match s.drop ws.length with
    | '\n' :: r => r
    | _ => s
  let rev := afterLead.reverse
  let wsr := rev.takeWhile fun c => isPySpace c && c ≠ '\n'
  match rev.drop wsr.length with
  | '\n' :: r => r.reverse
  | _ => afterLead

/-- No key of block `b` occurs in block `c` (the no-key-conflict side
condition of the union law, stated decidably). -/
def disjointKeys (b c : Dict) : Bool :=
  b.all fun kv => !(hasKey c kv.1)

/-- The candidate chunk sequence the splitter classifies: the delimiter
split of the document with a leading empty part popped (lines 109-116). -/
def splitParts (text : String) : List (List Char) :=
  let parts := pySplit yamlSep text.data
  if pyStrip (parts.headD []) = [] then parts.tail else parts

/-! ### Dictionary lemmas -/

theorem dictGet_mem {m : Dict} {k : String} {v : Value}
    (h : dictGet m k = some v) : (k, v) ∈ m := by
  induction m with
  | nil => simp [dictGet] at h
  | cons hd tl ih =>
    obtain ⟨k', v'⟩ := hd
    by_cases hk : k' = k
    · subst hk
      simp [dictGet] at h
      simp [h]
    · simp [dictGet, hk] at h
      exact List.mem_cons_of_mem _ (ih h)

theorem hasKey_of_mem {m : Dict} {k : String} {v : Value}
    (h : (k, v) ∈ m) : hasKey m k = true := by
  induction m with
  | nil => simp at h
  | cons hd tl ih =>
    obtain ⟨k', v'⟩ := hd
    rcases List.mem_cons.mp h with h1 | h2
    · cases h1
      simp [hasKey, dictGet]
    · by_cases hk : k' = k
      · simp [hasKey, dictGet, hk]
      · simpa [hasKey, dictGet, hk] using ih h2

theorem mem_of_hasKey {m : Dict} {k : String}
    (h : hasKey m k = true) : ∃ v, (k, v) ∈ m ∧ dictGet m k = some v := by
  unfold hasKey at h
  cases hv : dictGet m k with
  | none => rw [hv] at h; simp at h
  | some v => exact ⟨v, dictGet_mem hv, rfl⟩

theorem dictGet_append (l₁ l₂ : Dict) (k : String) :
    dictGet (l₁ ++ l₂) k =
      match dictGet l₁ k with
      | some v => some v
      | none => dictGet l₂ k := by
  induction l₁ with
  | nil => simp [dictGet]
  | cons hd tl ih =>
    obtain ⟨k', v'⟩ := hd
    by_cases hk : k' = k
    · simp [dictGet, hk]
    · simp [dictGet, hk, ih]

theorem hasKey_append (l₁ l₂ : Dict) (k : String) :
    hasKey (l₁ ++ l₂) k = (hasKey l₁ k || hasKey l₂ k) := by
  unfold hasKey
  rw [dictGet_append]
  cases dictGet l₁ k <;> simp

/-! ### Claim theorems -/

/-- C7: for every document on which the splitter and validator accept zero
or exactly one metadata block, process_file reports the unchanged signal
(`.ok none`); the early return at lines 159-160 fires before
merge_frontmatters is reached, so the merge resolver is never invoked. -/
theorem claim_C7 (text : String)
    (h : (extract_frontmatter_and_body text).1.length ≤ 1) :
    process_file text = .ok none := by
  unfold process_file
  simp [h]

/-- Witness for C7 at a document with no metadata block and at a document
with exactly one. -/
theorem claim_C7_witness :
    process_file "Just a note, no frontmatter.\n" = .ok none ∧
    process_file "---\ntitle: one\n---\nBody\n" = .ok none :=
  ⟨claim_C7 "Just a note, no frontmatter.\n" (by decide),
   claim_C7 "---\ntitle: one\n---\nBody\n" (by decide)⟩

/-- C2 (code bug): the pipeline is not idempotent.  On the document
`"---\nx: 1\n---\ny: 2\n---\n  a: 1\nb: 2\n"` the third chunk is rejected
(inconsistent indentation), but `body.strip()` removes the leading spaces
that made it invalid, so the re-emitted output contains a second valid
mapping after the merged block; re-running process_file on the replacement
detects two metadata blocks and produces a further replacement instead of
the unchanged signal the spec requires. -/
theorem claim_C2_code_bug :
    process_file "---\nx: 1\n---\ny: 2\n---\n  a: 1\nb: 2\n"
      = .ok (some "---\nx: 1\ny: 2\n---\n\na: 1\nb: 2\n") ∧
    (extract_frontmatter_and_body "---\nx: 1\ny: 2\n---\n\na: 1\nb: 2\n").1.length = 2 ∧
    process_file "---\nx: 1\ny: 2\n---\n\na: 1\nb: 2\n"
      = .ok (some "---\nx: 1\ny: 2\na: 1\nb: 2\n---\n\n\n") :=
  ⟨rfl, rfl, rfl⟩

/-- C10: merge_frontmatters is not total: on two accepted blocks whose
lists for the same key have mixed element types, the sorted deduplicated
union raises a TypeError, and process_file on a document carrying those
blocks fails with that error instead of returning a result (main catches
it per file at lines 223-229). -/
theorem claim_C10 :
    merge_frontmatters [[("k", .list [.int 1])], [("k", .list [.str "a"])]]
      = .error "TypeError: unorderable types" ∧
    process_file "---\nk: [1]\n---\nk: [a]\n---\nBody\n"
      = .error "TypeError: unorderable types" :=
  ⟨rfl, rfl⟩

/-- C6 counterexample: with existing list `[1]` and new list `["b"]` for
the same key, the merge raises a TypeError rather than producing the
sorted deduplicated union, so the claim as stated (for every pair of
lists) fails. -/
theorem claim_C6_counterexample :
    mergeItem ([("k", .list [.int 1])], []) ("k", .list [.str "b"])
      = .error "TypeError: unorderable types" :=
  rfl

/-- C9 counterexample: a document whose inner delimiter line carries a
trailing space is NOT split there: it yields zero accepted blocks (the
padded marker makes the chunk a multi-document parse error), while the
same document with a bare delimiter yields two blocks.  The splitter
therefore does not treat whitespace-trimmed delimiter lines as split
points. -/
theorem claim_C9_counterexample :
    (extract_frontmatter_and_body "---\na: 1\n--- \nb: 2\n---\nBody\n").1 = [] ∧
    process_file "---\na: 1\n--- \nb: 2\n---\nBody\n" = .ok none ∧
    (extract_frontmatter_and_body "---\na: 1\n---\nb: 2\n---\nBody\n").1.length = 2 :=
  ⟨rfl, rfl, rfl⟩

/-- C4 counterexample: the merge keeps the lexicographically greater
string, which is not a fixed chronological endpoint.  On the first pair
the kept value is the chronologically later one, on the second pair the
kept value is the chronologically earlier one (its `+05:00` offset puts it
before the other timestamp on the UTC timeline although its string sorts
higher), so neither "always earliest" nor "always latest" describes the
code. -/
theorem claim_C4_counterexample :
    merge_frontmatters [[("created", .scalar (.str "2023-01-01T00:00:00Z"))],
        [("created", .scalar (.str "2024-06-01T00:00:00Z"))]]
      = .ok ([("created", .scalar (.str "2024-06-01T00:00:00Z"))], []) ∧
    utcOfString "2023-01-01T00:00:00Z" < utcOfString "2024-06-01T00:00:00Z" ∧
    merge_frontmatters [[("created", .scalar (.str "2023-12-31T23:00:00Z"))],
        [("created", .scalar (.str "2024-01-01T00:00:00+05:00"))]]
      = .ok ([("created", .scalar (.str "2024-01-01T00:00:00+05:00"))], []) ∧
    utcOfString "2024-01-01T00:00:00+05:00" < utcOfString "2023-12-31T23:00:00Z" ∧
    is_datestamp (.scalar (.str "2023-01-01T00:00:00Z")) = true ∧
    is_datestamp (.scalar (.str "2024-06-01T00:00:00Z")) = true ∧
    is_datestamp (.scalar (.str "2023-12-31T23:00:00Z")) = true ∧
    is_datestamp (.scalar (.str "2024-01-01T00:00:00+05:00")) = true ∧
    ("2024-06-01T00:00:00Z" : String) ≠ "2023-01-01T00:00:00Z" ∧
    ("2024-01-01T00:00:00+05:00" : String) ≠ "2023-12-31T23:00:00Z" := by
  refine ⟨by rfl, by decide, by rfl, by decide, rfl, rfl, rfl, rfl, by decide, by decide⟩

/-- C3: a candidate chunk that parses to a mapping in which some key has a
null parsed value and no raw line is an explicit `key: null` / `key: ~`
line (case-insensitive, arbitrary surrounding whitespace) triggers the
implicit-null guard and is rejected by the classification loop; in
particular the flashcard-style document is classified as zero metadata
blocks and process_file leaves it unchanged. -/
theorem claim_C3 :
    (∀ (part : List Char) (data : Dict) (k : String),
      pyYamlSafeLoad part = .ok (.mapDoc data) →
      dictGet data k = some (.scalar .null) →
      (∀ line ∈ pySplitlines part, matchesExplicitNull k.data line = false) →
      contains_implicit_null part data = true ∧
      ∀ st : SplitState, st.isBody = false →
        classifyPart st part
          = { st with isBody := true, bodyParts := st.bodyParts ++ [part] }) ∧
    extract_frontmatter_and_body "---\nquestion:\n\nAnswer text\n---\nMore\n"
      = ([], "---\nquestion:\n\nAnswer text\n---\nMore") ∧
    process_file "---\nquestion:\n\nAnswer text\n---\nMore\n" = .ok none := by
  refine ⟨?_, rfl, rfl⟩
  intro part data k hparse hnull hno
  have hmem : (k, Value.scalar .null) ∈ data := dictGet_mem hnull
  have hcontains : contains_implicit_null part data = true := by
    unfold contains_implicit_null
    rw [List.any_eq_true]
    refine ⟨(k, .scalar .null), hmem, ?_⟩
    have hany : ((pySplitlines part).any fun line => matchesExplicitNull k.data line) = false := by
      rw [List.any_eq_false]
      intro line hl
      simp [hno line hl]
    simp only [hany, Bool.not_false]
  refine ⟨hcontains, ?_⟩
  intro st hst
  unfold classifyPart
  rw [hst]
  simp only [Bool.false_eq_true, if_false, hparse, hcontains, if_true]

/-- Witness for C3 at the chunk `"question:\nAnswer: x"` is not needed;
the witness instantiates the guard clause on the concrete chunk
`"a: 1\nq:"` whose key `q` is implicitly null, checking that the guard
fires and the loop rejects the chunk. -/
theorem claim_C3_witness :
    contains_implicit_null "a: 1\nq:".data [("a", .scalar (.int 1)), ("q", .scalar .null)] = true ∧
    classifyPart ⟨false, [], []⟩ "a: 1\nq:".data
      = ⟨true, [], ["a: 1\nq:".data]⟩ := by
  have h := (claim_C3.1 "a: 1\nq:".data [("a", .scalar (.int 1)), ("q", .scalar .null)] "q"
    rfl rfl (by decide))
  exact ⟨h.1, h.2 ⟨false, [], []⟩ rfl⟩

/-- C5: in the automatic conflict mode the code implements, a key whose
existing and new values are scalars (no list involved), not both
datestamps, and different, is overwritten by the new value while a
conflict record is emitted (the logger.warning of lines 69-71), and no
error is raised; the concrete scenario document produces merged mapping
`a = 2, b = 3`, exactly one conflict record (for key a), and the body
`"Body text"` re-emitted as `"Body text\n"`. -/
theorem claim_C5 :
    (∀ (m : Dict) (recs : List ConflictRecord) (k : String) (es vs : Scalar),
      dictGet m k = some (.scalar es) →
      (is_datestamp (.scalar es) && is_datestamp (.scalar vs)) = false →
      pyEqValue (.scalar es) (.scalar vs) = false →
      mergeItem (m, recs) (k, .scalar vs)
        = .ok (dictSet m k (.scalar vs), recs ++ [⟨k, .scalar es, .scalar vs⟩])) ∧
    extract_frontmatter_and_body "---\na: 1\n---\na: 2\nb: 3\n---\nBody text\n"
      = ([[("a", .scalar (.int 1))], [("a", .scalar (.int 2)), ("b", .scalar (.int 3))]],
         "Body text") ∧
    merge_frontmatters
        [[("a", .scalar (.int 1))], [("a", .scalar (.int 2)), ("b", .scalar (.int 3))]]
      = .ok ([("a", .scalar (.int 2)), ("b", .scalar (.int 3))],
             [⟨"a", .scalar (.int 1), .scalar (.int 2)⟩]) ∧
    process_file "---\na: 1\n---\na: 2\nb: 3\n---\nBody text\n"
      = .ok (some "---\na: 2\nb: 3\n---\n\nBody text\n") := by
  refine ⟨?_, rfl, rfl, rfl⟩
  intro m recs k es vs hget hdate hne
  unfold mergeItem
  simp only [hget, hdate, Bool.false_eq_true, if_false, hne]

/-- Witness for C5 instantiating the overwrite-and-record rule at the
scenario values: existing `a = 1`, new `a = 2`. -/
theorem claim_C5_witness :
    mergeItem ([("a", .scalar (.int 1))], []) ("a", .scalar (.int 2))
      = .ok ([("a", .scalar (.int 2))],
             [⟨"a", .scalar (.int 1), .scalar (.int 2)⟩]) := by
  have h := claim_C5.1 [("a", .scalar (.int 1))] [] "a" (.int 1) (.int 2) rfl rfl rfl
  exact h.trans (by rfl)

/-- C4 (amended): when both the existing and the new value are datestamp
strings, the merge keeps exactly one of the two values and emits no
conflict record; the kept value is the lexicographically (code-point)
greater string, the result of Python `max` (which coincides with the
chronologically latest only when the two strings share format and UTC
offset; see the counterexample theorem for the offset case). -/
theorem claim_C4 (m : Dict) (recs : List ConflictRecord) (k : String) (e v : Value)
    (hget : dictGet m k = some e)
    (he : is_datestamp e = true) (hv : is_datestamp v = true) :
    ∃ x y : String, e = .scalar (.str x) ∧ v = .scalar (.str y) ∧
      mergeItem (m, recs) (k, v)
        = .ok (dictSet m k (if charListLt x.data y.data then v else e), recs) ∧
      ((if charListLt x.data y.data then v else e) = e
        ∨ (if charListLt x.data y.data then v else e) = v) := by
  obtain ⟨x, rfl⟩ : ∃ x, e = Value.scalar (.str x) := by
    cases e with
    | scalar s =>
      cases s with
      | str x => exact ⟨x, rfl⟩
      | null => simp [is_datestamp] at he
      | bool b => simp [is_datestamp] at he
      | int n => simp [is_datestamp] at he
    | list l => simp [is_datestamp] at he
  obtain ⟨y, rfl⟩ : ∃ y, v = Value.scalar (.str y) := by
    cases v with
    | scalar s =>
      cases s with
      | str y => exact ⟨y, rfl⟩
      | null => simp [is_datestamp] at hv
      | bool b => simp [is_datestamp] at hv
      | int n => simp [is_datestamp] at hv
    | list l => simp [is_datestamp] at hv
  refine ⟨x, y, rfl, rfl, ?_, ?_⟩
  · unfold mergeItem
    simp only [hget, he, hv, Bool.and_self, if_true, pyMaxDatestamp]
  · by_cases hlt : charListLt x.data y.data = true
    · right; simp [hlt]
    · left; simp [hlt]

/-- Witness for C4 at the spec's example pair: merging
`created = 2023-01-01T00:00:00Z` with `created = 2024-06-01T00:00:00Z`
keeps exactly the later string. -/
theorem claim_C4_witness :
    mergeItem ([("created", .scalar (.str "2023-01-01T00:00:00Z"))], [])
        ("created", .scalar (.str "2024-06-01T00:00:00Z"))
      = .ok ([("created", .scalar (.str "2024-06-01T00:00:00Z"))], []) := by
  obtain ⟨x, y, hx, hy, heq, -⟩ :=
    claim_C4 [("created", .scalar (.str "2023-01-01T00:00:00Z"))] [] "created"
      (.scalar (.str "2023-01-01T00:00:00Z")) (.scalar (.str "2024-06-01T00:00:00Z"))
      rfl rfl rfl
  obtain rfl : "2023-01-01T00:00:00Z" = x := by
    injection hx with h1; injection h1 with h2
  obtain rfl : "2024-06-01T00:00:00Z" = y := by
    injection hy with h1; injection h1 with h2
  exact heq.trans (by rfl)

/-! ### Merge of key-disjoint blocks (for C1) -/

theorem hasKey_append_single_false {m : Dict} {k k' : String} {v : Value}
    (hm : hasKey m k' = false) (hk : k ≠ k') :
    hasKey (m ++ [(k, v)]) k' = false := by
  rw [hasKey_append, hm]
  simp [hasKey, dictGet, hk]

theorem foldlM_mergeItem_fresh (items : List (String × Value)) :
    ∀ (m : Dict) (recs : List ConflictRecord),
      (∀ kv ∈ items, hasKey m kv.1 = false) →
      (items.map Prod.fst).Nodup →
      List.foldlM mergeItem (m, recs) items = .ok (m ++ items, recs) := by
  induction items with
  | nil =>
    intro m recs _ _
    rw [List.append_nil]
    rfl
  | cons hd tl ih =>
    intro m recs hfresh hnodup
    obtain ⟨k, v⟩ := hd
    have hk : hasKey m k = false := hfresh (k, v) (List.mem_cons_self _ _)
    have hget : dictGet m k = none := by
      unfold hasKey at hk
      cases h : dictGet m k with
      | none => rfl
      | some v' => rw [h] at hk; simp at hk
    have hstep : mergeItem (m, recs) (k, v) = .ok (m ++ [(k, v)], recs) := by
      unfold mergeItem
      simp only [hget]
    rw [List.foldlM_cons, hstep]
    show List.foldlM mergeItem (m ++ [(k, v)], recs) tl = _
    simp only [List.map_cons, List.nodup_cons] at hnodup
    rw [ih (m ++ [(k, v)]) recs ?_ hnodup.2]
    · simp
    · intro kv hkv
      refine hasKey_append_single_false (hfresh kv (List.mem_cons_of_mem _ hkv)) ?_
      intro hcontra
      exact hnodup.1 (hcontra ▸ List.mem_map_of_mem Prod.fst hkv)

theorem disjointKeys_hasKey {b c : Dict} {k : String}
    (hd : disjointKeys b c = true) (hc : hasKey c k = true) :
    hasKey b k = false := by
  by_contra hb
  have hb' : hasKey b k = true := by
    cases h : hasKey b k with
    | false => exact absurd h hb
    | true => rfl
  obtain ⟨v, hvmem, -⟩ := mem_of_hasKey hb'
  have := List.all_eq_true.mp hd (k, v) hvmem
  simp only [Bool.not_eq_true'] at this
  rw [hc] at this
  cases this

theorem merge_blocks_disjoint (blocks : List Dict) :
    ∀ (m : Dict) (recs : List ConflictRecord),
      (∀ b ∈ blocks, ∀ kv ∈ b, hasKey m kv.1 = false) →
      (∀ b ∈ blocks, (b.map Prod.fst).Nodup) →
      blocks.Pairwise (fun b c => disjointKeys b c = true) →
      List.foldlM (fun acc block => block.foldlM mergeItem acc) (m, recs) blocks
        = .ok (m ++ blocks.flatten, recs) := by
  induction blocks with
  | nil =>
    intro m recs _ _ _
    show Except.ok (m, recs) = Except.ok (m ++ [], recs)
    rw [List.append_nil]
  | cons b bs ih =>
    intro m recs hfresh hnodup hpair
    rw [List.foldlM_cons]
    rw [foldlM_mergeItem_fresh b m recs (hfresh b (List.mem_cons_self _ _))
      (hnodup b (List.mem_cons_self _ _))]
    show List.foldlM _ (m ++ b, recs) bs = _
    rw [ih (m ++ b) recs ?_ (fun c hc => hnodup c (List.mem_cons_of_mem _ hc))
      (List.pairwise_cons.mp hpair).2]
    · simp
    · intro c hc kv hkv
      rw [hasKey_append]
      have h1 : hasKey m kv.1 = false := hfresh c (List.mem_cons_of_mem _ hc) kv hkv
      have hck : hasKey c kv.1 = true := by
        obtain ⟨k0, v0⟩ := kv
        exact hasKey_of_mem hkv
      have h2 : hasKey b kv.1 = false :=
        disjointKeys_hasKey ((List.pairwise_cons.mp hpair).1 c hc) hck
      rw [h1, h2]
      rfl

/-! ### Key-nodup invariant of parsed mappings (for C1) -/

theorem mem_keys_dictSet {m : Dict} {k k'' : String} {v : Value}
    (h : k'' ∈ (dictSet m k v).map Prod.fst) :
    k'' ∈ m.map Prod.fst ∨ k'' = k := by
  induction m with
  | nil =>
    simp [dictSet] at h
    simp [h]
  | cons hd tl ih =>
    obtain ⟨k', v'⟩ := hd
    by_cases hk : k' = k
    · simp only [dictSet, hk, if_true, List.map_cons, List.mem_cons] at h
      rcases h with h | h
      · right; exact h
      · left; simp [h]
    · simp only [dictSet, hk, if_false, List.map_cons, List.mem_cons] at h
      rcases h with h | h
      · left; simp [h]
      · rcases ih h with h' | h'
        · left; simp [h']
        · right; exact h'

theorem nodupKeys_dictSet {m : Dict} (k : String) (v : Value)
    (h : (m.map Prod.fst).Nodup) : ((dictSet m k v).map Prod.fst).Nodup := by
  induction m with
  | nil => simp [dictSet]
  | cons hd tl ih =>
    obtain ⟨k', v'⟩ := hd
    simp only [List.map_cons, List.nodup_cons] at h
    by_cases hk : k' = k
    · subst hk
      simp only [dictSet, if_true, List.map_cons, List.nodup_cons]
      exact ⟨h.1, h.2⟩
    · simp only [dictSet, hk, if_false, List.map_cons, List.nodup_cons]
      refine ⟨?_, ih h.2⟩
      intro hmem
      rcases mem_keys_dictSet hmem with hm | hm
      · exact h.1 hm
      · exact hk hm

theorem parseMapLine_nodup {acc m : Dict} {l : List Char}
    (hacc : (acc.map Prod.fst).Nodup) (h : parseMapLine acc l = .ok m) :
    (m.map Prod.fst).Nodup := by
  unfold parseMapLine at h
  cases hsplit : splitKeyColonAux [] l with
  | none => rw [hsplit] at h; cases h
  | some kv =>
    rw [hsplit] at h
    replace h : (parseValueText kv.2).bind
        (fun v => Except.ok (dictSet acc (String.mk (pyStrip kv.1)) v)) = Except.ok m := h
    cases hval : parseValueText kv.2 with
    | error e =>
      rw [hval] at h
      simp [Except.bind] at h
    | ok v =>
      rw [hval] at h
      simp only [Except.bind] at h
      injection h with h1
      exact h1 ▸ nodupKeys_dictSet _ _ hacc

theorem foldlM_parseMapLine_nodup (lines : List (List Char)) :
    ∀ (acc m : Dict), (acc.map Prod.fst).Nodup →
      List.foldlM parseMapLine acc lines = .ok m →
      (m.map Prod.fst).Nodup := by
  induction lines with
  | nil =>
    intro acc m h hf
    replace hf : Except.ok acc = Except.ok m := hf
    cases hf
    exact h
  | cons l ls ih =>
    intro acc m h hf
    rw [List.foldlM_cons] at hf
    cases hstep : parseMapLine acc l with
    | error e => rw [hstep] at hf; cases hf
    | ok acc' =>
      rw [hstep] at hf
      exact ih acc' m (parseMapLine_nodup h hstep) hf

theorem parseContentLines_mapDoc_nodup {content : List (List Char)} {m : Dict}
    (h : parseContentLines content = .ok (.mapDoc m)) : (m.map Prod.fst).Nodup := by
  unfold parseContentLines at h
  split at h
  · cases h
  · split at h
    · split at h
      · split at h
        · rename_i heq
          injection h with h1
          injection h1 with h2
          subst h2
          exact foldlM_parseMapLine_nodup _ [] _ (by simp) heq
        · cases h
      · cases h
    · split at h
      · injection h with h1
        cases h1
      · cases h

theorem parseAfterMarker_mapDoc_nodup {ls : List (List Char)} {m : Dict}
    (h : parseAfterMarker ls = .ok (.mapDoc m)) : (m.map Prod.fst).Nodup := by
  simp only [parseAfterMarker] at h
  split at h
  · cases h
  · exact parseContentLines_mapDoc_nodup h

theorem pyYamlSafeLoad_mapDoc_nodup {cs : List Char} {m : Dict}
    (h : pyYamlSafeLoad cs = .ok (.mapDoc m)) : (m.map Prod.fst).Nodup := by
  unfold pyYamlSafeLoad at h
  split at h
  · cases h
  · split at h
    · split at h
      · exact parseAfterMarker_mapDoc_nodup h
      · cases h
    · exact parseAfterMarker_mapDoc_nodup h

/-! ### Characterization of the classification loop -/

theorem classifyPart_not_body (st : SplitState) (p : List Char)
    (h : st.isBody = false) :
    classifyPart st p =
      match acceptsChunk p with
      | some d => { st with frontmatters := st.frontmatters ++ [d] }
      | none => { st with isBody := true, bodyParts := st.bodyParts ++ [p] } := by
  unfold classifyPart acceptsChunk
  rw [h]
  cases hp : pyYamlSafeLoad p with
  | error e => simp
  | ok doc =>
    cases doc with
    | nullDoc => simp
    | scalarDoc s => simp
    | mapDoc data =>
      by_cases hc : contains_implicit_null p data = true
      · simp [hc]
      · simp only [Bool.false_eq_true, if_false]
        rw [Bool.not_eq_true] at hc
        simp [hc]

theorem foldl_classifyPart_body (parts : List (List Char)) :
    ∀ st : SplitState, st.isBody = true →
      parts.foldl classifyPart st
        = { st with bodyParts := st.bodyParts ++ parts } := by
  induction parts with
  | nil => intro st h; simp
  | cons p ps ih =>
    intro st h
    rw [List.foldl_cons]
    have hstep : classifyPart st p = { st with bodyParts := st.bodyParts ++ [p] } := by
      unfold classifyPart
      rw [h]
      simp
    rw [hstep, ih _ (show ({ st with bodyParts := st.bodyParts ++ [p] } : SplitState).isBody = true from h)]
    simp

theorem foldl_classifyPart_spec (parts : List (List Char)) :
    ∀ fms0 : List Dict,
      parts.foldl classifyPart ⟨false, fms0, []⟩
        = if _hstop : (parts.dropWhile fun p => (acceptsChunk p).isSome) = [] then
            ⟨false,
             fms0 ++ (parts.takeWhile fun p => (acceptsChunk p).isSome).filterMap acceptsChunk,
             []⟩
          else
            ⟨true,
             fms0 ++ (parts.takeWhile fun p => (acceptsChunk p).isSome).filterMap acceptsChunk,
             parts.dropWhile fun p => (acceptsChunk p).isSome⟩ := by
  induction parts with
  | nil => intro fms0; simp
  | cons p ps ih =>
    intro fms0
    rw [List.foldl_cons, classifyPart_not_body _ _ rfl]
    cases hacc : acceptsChunk p with
    | some d =>
      simp only
      rw [ih (fms0 ++ [d])]
      have htake : ((p :: ps).takeWhile fun q => (acceptsChunk q).isSome)
          = p :: (ps.takeWhile fun q => (acceptsChunk q).isSome) := by
        rw [List.takeWhile_cons]
        simp [hacc]
      have hdrop : ((p :: ps).dropWhile fun q => (acceptsChunk q).isSome)
          = ps.dropWhile fun q => (acceptsChunk q).isSome := by
        rw [List.dropWhile_cons]
        simp [hacc]
      rw [htake, hdrop]
      simp [hacc, List.filterMap_cons]
    | none =>
      simp only
      rw [foldl_classifyPart_body ps _ rfl]
      have htake : ((p :: ps).takeWhile fun q => (acceptsChunk q).isSome) = [] := by
        rw [List.takeWhile_cons]
        simp [hacc]
      have hdrop : ((p :: ps).dropWhile fun q => (acceptsChunk q).isSome) = p :: ps := by
        rw [List.dropWhile_cons]
        simp [hacc]
      rw [htake, hdrop]
      simp

theorem extract_blocks_accepted {text : String} {b : Dict}
    (hb : b ∈ (extract_frontmatter_and_body text).1) :
    ∃ p, acceptsChunk p = some b := by
  simp only [extract_frontmatter_and_body] at hb
  split at hb
  · simp at hb
  · split at hb
    · simp at hb
    · rw [foldl_classifyPart_spec _ []] at hb
      split at hb <;> split at hb <;>
      · simp only [List.nil_append] at hb
        obtain ⟨p, -, hp⟩ := List.mem_filterMap.mp hb
        exact ⟨p, hp⟩

theorem extract_blocks_nodup {text : String} {b : Dict}
    (hb : b ∈ (extract_frontmatter_and_body text).1) :
    (b.map Prod.fst).Nodup := by
  obtain ⟨p, hp⟩ := extract_blocks_accepted hb
  unfold acceptsChunk at hp
  split at hp
  · rename_i data hparse
    split at hp
    · cases hp
    · injection hp with h1
      exact h1 ▸ pyYamlSafeLoad_mapDoc_nodup hparse
  · cases hp

theorem hasKey_flatten (bs : List Dict) (k : String) :
    hasKey bs.flatten k = true ↔ ∃ b ∈ bs, hasKey b k = true := by
  induction bs with
  | nil => simp [hasKey, dictGet]
  | cons b tl ih =>
    rw [List.flatten_cons, hasKey_append]
    constructor
    · intro h
      rcases Bool.or_eq_true .. |>.mp h with h' | h'
      · exact ⟨b, List.mem_cons_self _ _, h'⟩
      · obtain ⟨c, hc, hck⟩ := ih.mp h'
        exact ⟨c, List.mem_cons_of_mem _ hc, hck⟩
    · rintro ⟨c, hc, hck⟩
      rcases List.mem_cons.mp hc with rfl | hc'
      · simp [hck]
      · simp [ih.mpr ⟨c, hc', hck⟩]

theorem dictGet_flatten_of_disjoint (bs : List Dict) (b : Dict)
    (hdisj : bs.Pairwise fun x y => disjointKeys x y = true)
    (hb : b ∈ bs) (k : String) (v : Value) (hget : dictGet b k = some v) :
    dictGet bs.flatten k = some v := by
  induction bs with
  | nil => simp at hb
  | cons hd tl ih =>
    rw [List.flatten_cons, dictGet_append]
    rcases List.mem_cons.mp hb with rfl | hb'
    · rw [hget]
    · have hhd : dictGet hd k = none := by
        have hbk : hasKey b k = true := by
          unfold hasKey
          rw [hget]
          rfl
        have hd' : disjointKeys hd b = true := (List.pairwise_cons.mp hdisj).1 b hb'
        have := disjointKeys_hasKey hd' hbk
        unfold hasKey at this
        cases hcase : dictGet hd k with
        | none => rfl
        | some w => rw [hcase] at this; simp at this
      rw [hhd]
      exact ih (List.Pairwise.of_cons hdisj) hb'

/-- C1: for every document whose leading portion yields two or more
accepted metadata blocks with no key occurring in more than one block, the
merge succeeds without conflict records and the merged mapping is exactly
the concatenation of the blocks; hence its key set is the union of the
blocks' key sets and every key keeps the value from its single source
block. -/
theorem claim_C1 (text : String) (fms : List Dict) (body : String)
    (hex : extract_frontmatter_and_body text = (fms, body))
    (hlen : 2 ≤ fms.length)
    (hdisj : fms.Pairwise fun b c => disjointKeys b c = true) :
    merge_frontmatters fms = .ok (fms.flatten, []) ∧
    (∀ k, hasKey fms.flatten k = true ↔ ∃ b ∈ fms, hasKey b k = true) ∧
    (∀ b ∈ fms, ∀ k v, dictGet b k = some v → dictGet fms.flatten k = some v) := by
  have hnodup : ∀ b ∈ fms, (b.map Prod.fst).Nodup := by
    intro b hb
    have hb' : b ∈ (extract_frontmatter_and_body text).1 := by
      rw [hex]
      exact hb
    exact extract_blocks_nodup hb'
  refine ⟨?_, fun k => hasKey_flatten fms k, ?_⟩
  · unfold merge_frontmatters
    have := merge_blocks_disjoint fms [] [] (by intro b _ kv _; rfl) hnodup hdisj
    rw [this]
    simp
  · intro b hb k v hget
    exact dictGet_flatten_of_disjoint fms b hdisj hb k v hget

/-- Witness for C1 at a two-block document with disjoint keys: the merge
is the concatenation, with no conflict records. -/
theorem claim_C1_witness :
    merge_frontmatters [[("a", .scalar (.int 1))], [("b", .scalar (.int 2))]]
      = .ok ([("a", .scalar (.int 1)), ("b", .scalar (.int 2))], []) := by
  have h := claim_C1 "---\na: 1\n---\nb: 2\n---\nBody\n"
    [[("a", .scalar (.int 1))], [("b", .scalar (.int 2))]] "Body" rfl (by decide)
    (by decide)
  exact h.1.trans (by rfl)

/-! ### Order theory of the Python comparison model (for C6) -/

theorem charListLt_asymm {x y : List Char} (h : charListLt x y = true) :
    charListLt y x = false := by
  induction x generalizing y with
  | nil =>
    cases y with
    | nil => simp [charListLt] at h
    | cons b ys => simp [charListLt]
  | cons a xs ih =>
    cases y with
    | nil => simp [charListLt] at h
    | cons b ys =>
      unfold charListLt at h ⊢
      by_cases h1 : a.toNat < b.toNat
      · have h2 : ¬ b.toNat < a.toNat := by omega
        simp [h1, h2]
      · by_cases h2 : b.toNat < a.toNat
        · rw [if_neg h1, if_pos h2] at h
          cases h
        · rw [if_neg h1, if_neg h2] at h
          simp only [h2, if_false, h1, ite_false]
          exact ih h

theorem charListLt_trans {x y z : List Char} (h1 : charListLt x y = true)
    (h2 : charListLt y z = true) : charListLt x z = true := by
  induction x generalizing y z with
  | nil =>
    cases z with
    | nil =>
      cases y with
      | nil => exact h1
      | cons b ys => simp [charListLt] at h2
    | cons c zs => simp [charListLt]
  | cons a xs ih =>
    cases y with
    | nil => simp [charListLt] at h1
    | cons b ys =>
      cases z with
      | nil => simp [charListLt] at h2
      | cons c zs =>
        unfold charListLt at h1 h2 ⊢
        by_cases hab : a.toNat < b.toNat <;> by_cases hbc : b.toNat < c.toNat
        · have : a.toNat < c.toNat := by omega
          simp [this]
        · rw [if_neg hbc] at h2
          by_cases hcb : c.toNat < b.toNat
          · rw [if_pos hcb] at h2
            cases h2
          · rw [if_neg hcb] at h2
            have : a.toNat < c.toNat := by omega
            simp [this]
        · rw [if_neg hab] at h1
          by_cases hba : b.toNat < a.toNat
          · rw [if_pos hba] at h1
            cases h1
          · rw [if_neg hba] at h1
            have : a.toNat < c.toNat := by omega
            simp [this]
        · rw [if_neg hab] at h1
          rw [if_neg hbc] at h2
          by_cases hba : b.toNat < a.toNat
          · rw [if_pos hba] at h1; cases h1
          · by_cases hcb : c.toNat < b.toNat
            · rw [if_pos hcb] at h2; cases h2
            · rw [if_neg hba] at h1
              rw [if_neg hcb] at h2
              have hac : ¬ a.toNat < c.toNat := by omega
              have hca : ¬ c.toNat < a.toNat := by omega
              rw [if_neg hac, if_neg hca]
              exact ih h1 h2

theorem charListLt_conn {x y : List Char} (h1 : charListLt x y = false)
    (h2 : charListLt y x = false) : x = y := by
  induction x generalizing y with
  | nil =>
    cases y with
    | nil => rfl
    | cons b ys => simp [charListLt] at h1
  | cons a xs ih =>
    cases y with
    | nil => simp [charListLt] at h2
    | cons b ys =>
      unfold charListLt at h1 h2
      by_cases hab : a.toNat < b.toNat
      · rw [if_pos hab] at h1; cases h1
      · by_cases hba : b.toNat < a.toNat
        · rw [if_pos hba] at h2; cases h2
        · rw [if_neg hab, if_neg hba] at h1
          rw [if_neg hba, if_neg hab] at h2
          have hxy : xs = ys := ih h1 h2
          have hn : a.toNat = b.toNat := by omega
          have hc : a = b := by
            have h' := congrArg Char.ofNat hn
            rwa [Char.ofNat_toNat, Char.ofNat_toNat] at h'
          rw [hc, hxy]

theorem pyEqScalar_refl (a : Scalar) : pyEqScalar a a = true := by
  unfold pyEqScalar
  cases h : a.toNum <;> simp

theorem pyEqScalar_symm {a b : Scalar} (h : pyEqScalar a b = true) :
    pyEqScalar b a = true := by
  unfold pyEqScalar at h ⊢
  cases ha : a.toNum <;> cases hb : b.toNum <;> rw [ha, hb] at h <;>
    simp_all [beq_iff_eq]

theorem pyLt_cases (a b : Scalar) (h : (pyLtScalar a b).isSome = true) :
    (∃ x y, a = .str x ∧ b = .str y ∧
      pyLtScalar a b = some (charListLt x.data y.data) ∧
      pyLtScalar b a = some (charListLt y.data x.data)) ∨
    (∃ na nb, a.toNum = some na ∧ b.toNum = some nb ∧
      pyLtScalar a b = some (decide (na < nb)) ∧
      pyLtScalar b a = some (decide (nb < na))) := by
  cases a with
  | null => simp [pyLtScalar, Scalar.toNum] at h
  | str x =>
    cases b with
    | str y => exact Or.inl ⟨x, y, rfl, rfl, rfl, rfl⟩
    | null => simp [pyLtScalar, Scalar.toNum] at h
    | bool bb => simp [pyLtScalar, Scalar.toNum] at h
    | int n => simp [pyLtScalar, Scalar.toNum] at h
  | bool ba =>
    cases b with
    | str y => simp [pyLtScalar, Scalar.toNum] at h
    | null => simp [pyLtScalar, Scalar.toNum] at h
    | bool bb => exact Or.inr ⟨_, _, rfl, rfl, rfl, rfl⟩
    | int n => exact Or.inr ⟨_, _, rfl, rfl, rfl, rfl⟩
  | int na =>
    cases b with
    | str y => simp [pyLtScalar, Scalar.toNum] at h
    | null => simp [pyLtScalar, Scalar.toNum] at h
    | bool bb => exact Or.inr ⟨_, _, rfl, rfl, rfl, rfl⟩
    | int n => exact Or.inr ⟨_, _, rfl, rfl, rfl, rfl⟩

theorem pyLeB_eq_of_lt (a b : Scalar) :
    ∀ r, pyLtScalar b a = some r → pyLeB a b = !r := by
  intro r hr
  unfold pyLeB
  rw [hr]

theorem pyLeB_of_not {a b : Scalar} (h : (pyLtScalar a b).isSome = true)
    (hf : pyLeB a b = false) : pyLeB b a = true := by
  rcases pyLt_cases a b h with ⟨x, y, rfl, rfl, hab, hba⟩ | ⟨na, nb, ha, hb, hab, hba⟩
  · rw [pyLeB_eq_of_lt _ _ _ hba] at hf
    rw [pyLeB_eq_of_lt _ _ _ hab]
    have hf' : charListLt y.data x.data = true := by
      revert hf
      cases charListLt y.data x.data <;> simp
    rw [charListLt_asymm hf']
    rfl
  · rw [pyLeB_eq_of_lt _ _ _ hba] at hf
    rw [pyLeB_eq_of_lt _ _ _ hab]
    have hf' : decide (nb < na) = true := by
      revert hf
      cases decide (nb < na) <;> simp
    have hlt : nb < na := of_decide_eq_true hf'
    have hnlt : decide (na < nb) = false := decide_eq_false (by omega)
    rw [hnlt]
    rfl

theorem pyLeB_trans_str {x y z : String}
    (h1 : pyLeB (.str x) (.str y) = true) (h2 : pyLeB (.str y) (.str z) = true) :
    pyLeB (.str x) (.str z) = true := by
  simp only [pyLeB, pyLtScalar, Bool.not_eq_true'] at h1 h2 ⊢
  cases hzx : charListLt z.data x.data with
  | false => rfl
  | true =>
    cases hxy : charListLt x.data y.data with
    | true =>
      rw [charListLt_trans hzx hxy] at h2
      cases h2
    | false =>
      rw [charListLt_conn hxy h1] at hzx
      rw [hzx] at h2
      cases h2

theorem pyLeB_eq_num {a b : Scalar} {na nb : Int}
    (ha : a.toNum = some na) (hb : b.toNum = some nb) :
    pyLeB a b = !decide (nb < na) := by
  cases a <;> cases b <;>
    simp_all [pyLeB, pyLtScalar, Scalar.toNum]

theorem pyLeB_trans {a b c : Scalar}
    (hab : (pyLtScalar a b).isSome = true)
    (hbc : (pyLtScalar b c).isSome = true)
    (h1 : pyLeB a b = true) (h2 : pyLeB b c = true) : pyLeB a c = true := by
  rcases pyLt_cases a b hab with ⟨x, y, rfl, rfl, -, -⟩ | ⟨na, nb, ha, hb, -, -⟩
  · rcases pyLt_cases _ c hbc with ⟨y2, z, hy2, rfl, -, -⟩ | ⟨nb2, nc, hb2, hc, -, -⟩
    · obtain rfl : y2 = y := by injection hy2 with h2'; exact h2'.symm
      exact pyLeB_trans_str h1 h2
    · simp [Scalar.toNum] at hb2
  · rcases pyLt_cases b c hbc with ⟨y, z, hy, rfl, -, -⟩ | ⟨nb2, nc, hb2, hc, -, -⟩
    · rw [hy] at hb
      simp [Scalar.toNum] at hb
    · obtain rfl : nb2 = nb := by rw [hb] at hb2; injection hb2 with h2'; exact h2'.symm
      rw [pyLeB_eq_num ha hb] at h1
      rw [pyLeB_eq_num hb hc] at h2
      rw [pyLeB_eq_num ha hc]
      simp only [Bool.not_eq_true', decide_eq_false_iff_not] at h1 h2 ⊢
      omega


theorem pyLtScalar_isSome_symm (a b : Scalar) :
    (pyLtScalar a b).isSome = (pyLtScalar b a).isSome := by
  cases a <;> cases b <;> simp [pyLtScalar, Scalar.toNum]

/-! ### Insertion sort lemmas (for C6) -/

theorem mem_insertSorted {x a : Scalar} {l : List Scalar} :
    a ∈ insertSorted x l ↔ a = x ∨ a ∈ l := by
  induction l with
  | nil => simp [insertSorted]
  | cons y ys ih =>
    unfold insertSorted
    by_cases h : pyLeB x y = true
    · rw [if_pos h]
      exact List.mem_cons
    · rw [if_neg (by simpa using h)]
      rw [List.mem_cons, ih, List.mem_cons]
      tauto

theorem insertSorted_perm (x : Scalar) (l : List Scalar) :
    List.Perm (insertSorted x l) (x :: l) := by
  induction l with
  | nil => exact List.Perm.refl _
  | cons y ys ih =>
    unfold insertSorted
    by_cases h : pyLeB x y = true
    · rw [if_pos h]
    · rw [if_neg (by simpa using h)]
      exact List.Perm.trans (List.Perm.cons y ih) (List.Perm.swap x y ys)

theorem sortScalars_perm (l : List Scalar) : List.Perm (sortScalars l) l := by
  induction l with
  | nil => exact List.Perm.refl _
  | cons x xs ih =>
    unfold sortScalars
    exact List.Perm.trans (insertSorted_perm ..) (List.Perm.cons x ih)

theorem pairwise_insertSorted {x : Scalar} {l : List Scalar}
    (hcomp : ∀ a ∈ x :: l, ∀ b ∈ x :: l, (pyLtScalar a b).isSome = true)
    (hl : l.Pairwise fun a b => pyLeB a b = true) :
    (insertSorted x l).Pairwise fun a b => pyLeB a b = true := by
  induction l with
  | nil => simp [insertSorted]
  | cons y ys ih =>
    obtain ⟨hy, hys⟩ := List.pairwise_cons.mp hl
    unfold insertSorted
    by_cases h : pyLeB x y = true
    · rw [if_pos h]
      refine List.pairwise_cons.mpr ⟨?_, hl⟩
      intro z hz
      rcases List.mem_cons.mp hz with rfl | hz'
      · exact h
      · refine pyLeB_trans ?_ ?_ h (hy z hz')
        · exact hcomp x (by simp) y (by simp)
        · exact hcomp y (by simp) z (by simp [hz'])
    · rw [if_neg (by simpa using h)]
      have hfalse : pyLeB x y = false := by
        revert h
        cases pyLeB x y <;> simp
      refine List.pairwise_cons.mpr ⟨?_, ?_⟩
      · intro w hw
        rcases mem_insertSorted.mp hw with rfl | hw'
        · exact pyLeB_of_not (hcomp _ (by simp) y (by simp)) hfalse
        · exact hy w hw'
      · refine ih ?_ hys
        intro a ha b hb
        have ha2 : a ∈ x :: y :: ys := by
          rcases List.mem_cons.mp ha with rfl | ha'
          · simp
          · simp [ha']
        have hb2 : b ∈ x :: y :: ys := by
          rcases List.mem_cons.mp hb with rfl | hb'
          · simp
          · simp [hb']
        exact hcomp a ha2 b hb2

theorem pairwise_sortScalars {l : List Scalar}
    (hcomp : ∀ a ∈ l, ∀ b ∈ l, (pyLtScalar a b).isSome = true) :
    (sortScalars l).Pairwise fun a b => pyLeB a b = true := by
  induction l with
  | nil => simp [sortScalars]
  | cons x xs ih =>
    unfold sortScalars
    refine pairwise_insertSorted ?_ (ih ?_)
    · intro a ha b hb
      have hmem : ∀ c, c ∈ x :: sortScalars xs → c ∈ x :: xs := by
        intro c hc
        rcases List.mem_cons.mp hc with rfl | hc'
        · simp
        · exact List.mem_cons_of_mem _ ((sortScalars_perm xs).mem_iff.mp hc')
      exact hcomp a (hmem a ha) b (hmem b hb)
    · intro a ha b hb
      exact hcomp a (List.mem_cons_of_mem _ ha) b (List.mem_cons_of_mem _ hb)

/-! ### Python set-of-list lemmas (for C6) -/

theorem mem_foldl_pyInsertNew_of_mem {l acc : List Scalar} {a : Scalar}
    (ha : a ∈ acc) : a ∈ l.foldl pyInsertNew acc := by
  induction l generalizing acc with
  | nil => simpa using ha
  | cons x xs ih =>
    rw [List.foldl_cons]
    refine ih ?_
    unfold pyInsertNew
    split
    · exact ha
    · exact List.mem_append_left _ ha

theorem foldl_pyInsertNew_sub {l acc : List Scalar} {a : Scalar}
    (ha : a ∈ l.foldl pyInsertNew acc) : a ∈ acc ∨ a ∈ l := by
  induction l generalizing acc with
  | nil => exact Or.inl ha
  | cons x xs ih =>
    rw [List.foldl_cons] at ha
    rcases ih ha with h' | h'
    · unfold pyInsertNew at h'
      split at h'
      · exact Or.inl h'
      · rcases List.mem_append.mp h' with h'' | h''
        · exact Or.inl h''
        · simp at h''
          simp [h'']
    · simp [h']

theorem foldl_pyInsertNew_covers (acc : List Scalar) {l : List Scalar} {a : Scalar}
    (ha : a ∈ l) :
    ∃ r ∈ l.foldl pyInsertNew acc, pyEqScalar r a = true := by
  induction l generalizing acc with
  | nil => simp at ha
  | cons x xs ih =>
    rw [List.foldl_cons]
    rcases List.mem_cons.mp ha with rfl | ha'
    · unfold pyInsertNew
      cases hany : acc.any fun y => pyEqScalar y a with
      | true =>
        obtain ⟨r, hr, hreq⟩ := List.any_eq_true.mp hany
        exact ⟨r, mem_foldl_pyInsertNew_of_mem (by simp [hr]), hreq⟩
      | false =>
        refine ⟨a, mem_foldl_pyInsertNew_of_mem ?_, pyEqScalar_refl a⟩
        simp
    · exact ih _ ha'

theorem pairwise_foldl_pyInsertNew {l acc : List Scalar}
    (hacc : acc.Pairwise fun a b => pyEqScalar a b = false) :
    (l.foldl pyInsertNew acc).Pairwise fun a b => pyEqScalar a b = false := by
  induction l generalizing acc with
  | nil => simpa using hacc
  | cons x xs ih =>
    rw [List.foldl_cons]
    refine ih ?_
    unfold pyInsertNew
    cases hany : acc.any fun y => pyEqScalar y x with
    | true => simpa using hacc
    | false =>
      simp only [Bool.false_eq_true, if_false]
      rw [List.pairwise_append]
      refine ⟨hacc, by simp, ?_⟩
      intro a ha b hb
      simp only [List.mem_singleton] at hb
      subst hb
      have hne := List.any_eq_false.mp hany a ha
      cases hx : pyEqScalar a b with
      | false => rfl
      | true => exact absurd hx hne

theorem listUnionSorted_spec (xs ys : List Scalar)
    (hc : comparableScalars (pySetOfList (xs ++ ys)) = true) :
    listUnionSorted xs ys = .ok (sortScalars (pySetOfList (xs ++ ys))) ∧
      (∀ a ∈ sortScalars (pySetOfList (xs ++ ys)), a ∈ xs ∨ a ∈ ys) ∧
      (∀ a, a ∈ xs ∨ a ∈ ys →
        ∃ r ∈ sortScalars (pySetOfList (xs ++ ys)), pyEqScalar r a = true) ∧
      (sortScalars (pySetOfList (xs ++ ys))).Pairwise (fun a b => pyLeB a b = true) ∧
      (sortScalars (pySetOfList (xs ++ ys))).Pairwise
        (fun a b => pyEqScalar a b = false) := by
  have hcomp : ∀ a ∈ pySetOfList (xs ++ ys), ∀ b ∈ pySetOfList (xs ++ ys),
      (pyLtScalar a b).isSome = true := by
    intro a ha b hb
    exact List.all_eq_true.mp (List.all_eq_true.mp hc a ha) b hb
  refine ⟨?_, ?_, ?_, ?_, ?_⟩
  · unfold listUnionSorted pySorted
    rw [if_pos hc]
  · intro a ha
    have ha' : a ∈ pySetOfList (xs ++ ys) := (sortScalars_perm _).mem_iff.mp ha
    rcases foldl_pyInsertNew_sub ha' with h' | h'
    · simp at h'
    · exact List.mem_append.mp h'
  · intro a ha
    obtain ⟨r, hr, hreq⟩ := foldl_pyInsertNew_covers [] (List.mem_append.mpr ha)
    exact ⟨r, (sortScalars_perm _).mem_iff.mpr hr, hreq⟩
  · exact pairwise_sortScalars hcomp
  · refine ((sortScalars_perm _).pairwise_iff ?_).mpr
      (pairwise_foldl_pyInsertNew (by simp))
    intro a b hab
    cases hba : pyEqScalar b a with
    | false => rfl
    | true => rw [pyEqScalar_symm hba] at hab; cases hab

/-- C6 (amended): when the union of the two sides for a key is a set of
mutually orderable elements, the merge replaces the key's value by the
sorted deduplicated union — in the list/list case and in both
list/scalar mixed cases — where "sorted deduplicated union" means: every
element comes from one of the two sides, every element of either side has
exactly one representative (up to Python equality), the result is
ascending, and no two elements are Python-equal.  On unions with
unorderable mixed types the merge instead raises a TypeError (see the
counterexample theorem), which is the one correction to the claim. -/
theorem claim_C6 :
    (∀ (m : Dict) (recs : List ConflictRecord) (k : String) (xs ys : List Scalar),
      dictGet m k = some (.list xs) →
      comparableScalars (pySetOfList (xs ++ ys)) = true →
      mergeItem (m, recs) (k, .list ys)
        = .ok (dictSet m k (.list (sortScalars (pySetOfList (xs ++ ys)))), recs) ∧
      (∀ a ∈ sortScalars (pySetOfList (xs ++ ys)), a ∈ xs ∨ a ∈ ys) ∧
      (∀ a, a ∈ xs ∨ a ∈ ys →
        ∃ r ∈ sortScalars (pySetOfList (xs ++ ys)), pyEqScalar r a = true) ∧
      (sortScalars (pySetOfList (xs ++ ys))).Pairwise (fun a b => pyLeB a b = true) ∧
      (sortScalars (pySetOfList (xs ++ ys))).Pairwise
        (fun a b => pyEqScalar a b = false)) ∧
    (∀ (m : Dict) (recs : List ConflictRecord) (k : String) (xs : List Scalar) (sv : Scalar),
      dictGet m k = some (.list xs) →
      comparableScalars (pySetOfList (xs ++ [sv])) = true →
      mergeItem (m, recs) (k, .scalar sv)
        = .ok (dictSet m k (.list (sortScalars (pySetOfList (xs ++ [sv])))), recs)) ∧
    (∀ (m : Dict) (recs : List ConflictRecord) (k : String) (se : Scalar) (ys : List Scalar),
      dictGet m k = some (.scalar se) →
      comparableScalars (pySetOfList (ys ++ [se])) = true →
      mergeItem (m, recs) (k, .list ys)
        = .ok (dictSet m k (.list (sortScalars (pySetOfList (ys ++ [se])))), recs)) ∧
    mergeItem ([("tags", .list [.str "a", .str "b"])], []) ("tags", .list [.str "b", .str "c"])
      = .ok ([("tags", .list [.str "a", .str "b", .str "c"])], []) := by
  refine ⟨?_, ?_, ?_, by rfl⟩
  · intro m recs k xs ys hget hc
    obtain ⟨hok, h1, h2, h3, h4⟩ := listUnionSorted_spec xs ys hc
    refine ⟨?_, h1, h2, h3, h4⟩
    unfold mergeItem
    simp only [hget, is_datestamp, Bool.false_and, Bool.false_eq_true, if_false]
    rw [show (listUnionSorted xs ys >>= fun u =>
        Except.ok (dictSet m k (.list u), recs) : Except String _)
      = Except.ok (dictSet m k (.list (sortScalars (pySetOfList (xs ++ ys)))), recs)
      from by rw [hok]; rfl]
  · intro m recs k xs sv hget hc
    obtain ⟨hok, -, -, -, -⟩ := listUnionSorted_spec xs [sv] hc
    unfold mergeItem
    simp only [hget, is_datestamp, Bool.false_and, Bool.false_eq_true, if_false]
    rw [show (listUnionSorted xs [sv] >>= fun u =>
        Except.ok (dictSet m k (.list u), recs) : Except String _)
      = Except.ok (dictSet m k (.list (sortScalars (pySetOfList (xs ++ [sv])))), recs)
      from by rw [hok]; rfl]
  · intro m recs k se ys hget hc
    obtain ⟨hok, -, -, -, -⟩ := listUnionSorted_spec ys [se] hc
    unfold mergeItem
    have hguard : (is_datestamp (.scalar se) && is_datestamp (.list ys)) = false := by
      simp [is_datestamp]
    simp only [hget, hguard, Bool.false_eq_true, if_false]
    rw [show (listUnionSorted ys [se] >>= fun u =>
        Except.ok (dictSet m k (.list u), recs) : Except String _)
      = Except.ok (dictSet m k (.list (sortScalars (pySetOfList (ys ++ [se])))), recs)
      from by rw [hok]; rfl]

/-- Witness for C6 at the list-union example from the spec: the accepted
hypotheses hold and the merged value is the sorted deduplicated union. -/
theorem claim_C6_witness :
    mergeItem ([("tags", .list [.str "a", .str "b"])], []) ("tags", .list [.str "b", .str "c"])
      = .ok ([("tags", .list (sortScalars (pySetOfList
          ([.str "a", .str "b"] ++ [.str "b", .str "c"]))))], []) :=
  (claim_C6.1 [("tags", .list [.str "a", .str "b"])] [] "tags"
    [.str "a", .str "b"] [.str "b", .str "c"] rfl (by decide)).1

/-! ### Split-join identity of the delimiter split (for C8 and C9) -/

theorem pySplitAux_ne_nil (sep : List Char) :
    ∀ (fuel : Nat) (s acc : List Char), pySplitAux sep fuel s acc ≠ [] := by
  intro fuel
  induction fuel with
  | zero => intro s acc; simp [pySplitAux]
  | succ f ih =>
    intro s acc
    cases s with
    | nil => simp [pySplitAux]
    | cons c rest =>
      unfold pySplitAux
      split
      · simp
      · exact ih rest (c :: acc)

theorem intercalate_cons_cons_eq (sep x y : List Char) (t : List (List Char)) :
    List.intercalate sep (x :: y :: t) = x ++ (sep ++ List.intercalate sep (y :: t)) :=
  rfl

theorem pySplitAux_intercalate (sep : List Char) (hsep : sep ≠ []) :
    ∀ (fuel : Nat) (s acc : List Char), s.length < fuel →
      List.intercalate sep (pySplitAux sep fuel s acc) = acc.reverse ++ s := by
  intro fuel
  induction fuel with
  | zero => intro s acc h; exact absurd h (Nat.not_lt_zero _)
  | succ f ih =>
    intro s acc h
    cases s with
    | nil =>
      show List.intercalate sep [acc.reverse] = acc.reverse ++ []
      simp [List.intercalate]
    | cons c rest =>
      unfold pySplitAux
      by_cases hpre : sep.isPrefixOf (c :: rest) = true
      · rw [if_pos hpre]
        obtain ⟨t, ht⟩ := List.isPrefixOf_iff_prefix.mp hpre
        have hdrop : (c :: rest).drop sep.length = t := by
          rw [← ht]
          exact List.drop_left sep t
        have hlen : ((c :: rest).drop sep.length).length < f := by
          rw [List.length_drop]
          have hsl : 0 < sep.length := List.length_pos.mpr hsep
          simp only [List.length_cons] at h ⊢
          omega
        cases hA : pySplitAux sep f ((c :: rest).drop sep.length) [] with
        | nil => exact absurd hA (pySplitAux_ne_nil sep f _ _)
        | cons a as =>
          rw [intercalate_cons_cons_eq, ← hA, ih _ _ hlen]
          rw [List.reverse_nil, List.nil_append, hdrop, ← ht]
      · rw [if_neg hpre]
        have hlen : rest.length < f := by
          simp only [List.length_cons] at h
          omega
        rw [ih rest (c :: acc) hlen]
        simp

theorem pySplit_intercalate (sep : List Char) (hsep : sep ≠ []) (s : List Char) :
    List.intercalate sep (pySplit sep s) = s := by
  unfold pySplit
  have h := pySplitAux_intercalate sep hsep (s.length + 1) s [] (by omega)
  simpa using h

/-- C9 (amended): the splitter splits only at exact occurrences of the
five-character sequence newline, three hyphens, newline, and the split is
lossless (re-joining the parts with the delimiter restores the document
byte-for-byte); delimiter-like lines with surrounding whitespace are not
split points — on the padded document they instead make the chunk a
multi-document parse error, so the whole document is rejected to the body
and left unchanged, whereas the bare-delimiter variant splits into two
accepted blocks. -/
theorem claim_C9 :
    (∀ s : List Char, List.intercalate yamlSep (pySplit yamlSep s) = s) ∧
    extract_frontmatter_and_body "---\na: 1\n--- \nb: 2\n---\nBody\n"
      = ([], "---\na: 1\n--- \nb: 2\n---\nBody") ∧
    process_file "---\na: 1\n--- \nb: 2\n---\nBody\n" = .ok none ∧
    extract_frontmatter_and_body "---\na: 1\n---\nb: 2\n---\nBody\n"
      = ([[("a", .scalar (.int 1))], [("b", .scalar (.int 2))]], "Body") :=
  ⟨fun s => pySplit_intercalate yamlSep (by decide) s, rfl, rfl, rfl⟩

/-- C8 counterexample: on a document whose body chunk starts with two
blank lines and carries a trailing space, the code's body is the fully
stripped text, not the text trimmed of a single leading and a single
trailing blank line: the rejected raw chunk is `"\n\nBody text \n"`, the
claimed trim yields `"\nBody text "`, but extract_frontmatter_and_body
returns `"Body text"`. -/
theorem claim_C8_counterexample :
    (splitParts "---\na: 1\n---\nb: 2\n---\n\n\nBody text \n").dropWhile
        (fun p => (acceptsChunk p).isSome)
      = ["\n\nBody text \n".data] ∧
    trimSingleBlankLines "\n\nBody text \n".data = "\nBody text ".data ∧
    extract_frontmatter_and_body "---\na: 1\n---\nb: 2\n---\n\n\nBody text \n"
      = ([[("a", .scalar (.int 1))], [("b", .scalar (.int 2))]], "Body text") ∧
    ("Body text" : String) ≠ "\nBody text " :=
  ⟨rfl, rfl, rfl, by decide⟩

/-- C8 (amended): for every document entering the splitting path, the
extracted frontmatters are the accepted prefix of the candidate chunks
and the body is the remaining chunks from the first rejected one onward —
including any further delimiter-bounded-looking segments — re-joined with
the original delimiter separator and stripped of ALL leading and trailing
whitespace (Python str.strip), not merely of a single blank line;
in between, the re-joined text is preserved byte-for-byte. -/
theorem claim_C8 (text : String)
    (h1 : ['-', '-', '-'].isPrefixOf (pyLStrip text.data) = true)
    (h2 : ¬((pySplit yamlSep text.data).length = 1
        ∧ pyStrip ((pySplit yamlSep text.data).headD []) = [])) :
    extract_frontmatter_and_body text
      = (((splitParts text).takeWhile fun p => (acceptsChunk p).isSome).filterMap
           acceptsChunk,
         String.mk (pyStrip (List.intercalate yamlSep
           ((splitParts text).dropWhile fun p => (acceptsChunk p).isSome)))) := by
  simp only [extract_frontmatter_and_body, splitParts]
  rw [h1]
  simp only [Bool.not_true, Bool.false_eq_true, if_false]
  have hcond : (decide ((pySplit yamlSep text.data).length = 1)
      && decide (pyStrip ((pySplit yamlSep text.data).headD []) = [])) = false := by
    cases hd1 : decide ((pySplit yamlSep text.data).length = 1) with
    | false => rfl
    | true =>
      cases hd2 : decide (pyStrip ((pySplit yamlSep text.data).headD []) = []) with
      | false => simp
      | true => exact absurd ⟨of_decide_eq_true hd1, of_decide_eq_true hd2⟩ h2
  rw [hcond]
  simp only [Bool.false_eq_true, if_false]
  rw [foldl_classifyPart_spec]
  split
  · split
    · rename_i hstop
      rw [hstop]
      simp
    · simp
  · split
    · rename_i hstop
      rw [hstop]
      simp
    · simp

/-- Witness for C8 at the counterexample document, discharging both
hypotheses. -/
theorem claim_C8_witness :
    extract_frontmatter_and_body "---\na: 1\n---\nb: 2\n---\n\n\nBody text \n"
      = (((splitParts "---\na: 1\n---\nb: 2\n---\n\n\nBody text \n").takeWhile
            fun p => (acceptsChunk p).isSome).filterMap acceptsChunk,
         String.mk (pyStrip (List.intercalate yamlSep
           ((splitParts "---\na: 1\n---\nb: 2\n---\n\n\nBody text \n").dropWhile
             fun p => (acceptsChunk p).isSome)))) :=
  claim_C8 "---\na: 1\n---\nb: 2\n---\n\n\nBody text \n" (by decide) (by decide)

end Unclobber
